import Mathlib

/-!
Verification of the COT core (helper invocation protocol and data
validation utilities) against its natural-language specification.

The definitions below are a shallow embedding of `COT/data_validation.py`
and `COT/helpers/helper.py`.  Pure Python functions become Lean functions;
code that touches the operating system (subprocess execution, the search
path, the filesystem) is parameterised by an explicit environment record
supplying the outcome of each OS interaction, and stateful objects
(`Helper` instances) become explicit state passing.  Python exceptions
become `Except` results.
-/

namespace COT

/-! ## data_validation.py -/

/-- Error raised by `check_for_conflict` / `match_or_die`
(`ValueMismatchError`), carrying the two values that failed to agree. -/
structure ValueMismatch (α : Type) where
  first : α
  second : α
  deriving Repr, DecidableEq

/-- Inner loop of `check_for_conflict`: scan `li[(i+1):]` for the first
present value `obj2` with `obj1 != obj2`; `none` if no such conflict.
From `data_validation.py` lines 63-69. -/
def cfcFirstConflict {α : Type} [DecidableEq α] (obj1 : α) :
    List (Option α) → Option (ValueMismatch α)
  | [] => none
  | none :: t => cfcFirstConflict obj1 t
  | some obj2 :: t =>
    if obj1 ≠ obj2 then some ⟨obj1, obj2⟩ else cfcFirstConflict obj1 t

/-- Outer loop of `check_for_conflict`, carrying the running `obj`
accumulator (`obj = None` initially, reassigned to each present entry).
From `data_validation.py` lines 59-71. -/
def cfcLoop {α : Type} [DecidableEq α] :
    List (Option α) → Option α → Except (ValueMismatch α) (Option α)
  | [], obj => .ok obj
  | none :: t, obj => cfcLoop t obj
  | some obj1 :: t, _ =>
    match cfcFirstConflict obj1 t with
    | some e => .error e
    | none => cfcLoop t (some obj1)

/-- `check_for_conflict(label, li)`: make sure all present entries of `li`
agree; return the last present entry (or `none`), else raise
`ValueMismatchError` naming the first conflicting pair.  The `label`
argument only feeds the error message text and is omitted here. -/
def check_for_conflict {α : Type} [DecidableEq α]
    (li : List (Option α)) : Except (ValueMismatch α) (Option α) :=
  cfcLoop li none

/-- Errors raised by `validate_int` (`ValueUnsupportedError`,
`ValueTooLowError`, `ValueTooHighError`), each carrying the structured
fields stored on the Python exception object. -/
inductive VErr where
  | unsupported (valueType : String) (actual : String) (expected : String)
  | tooLow (valueType : String) (actual : Int) (expected : Int)
  | tooHigh (valueType : String) (actual : Int) (expected : Int)
  deriving Repr, DecidableEq

/-- Numeric value of a list of ASCII decimal digits. -/
def digitsToNat (cs : List Char) : Nat :=
  cs.foldl (fun a c => a * 10 + (c.toNat - '0'.toNat)) 0

/-- Surrounding-whitespace strip, as performed by Python `int(str)`. -/
def pyStrip (cs : List Char) : List Char :=
  ((cs.dropWhile Char.isWhitespace).reverse.dropWhile Char.isWhitespace).reverse

/-- Model of Python `int(string)`: strip surrounding whitespace, allow an
optional single leading sign, require a nonempty run of decimal digits.
(Non-ASCII digit forms and PEP-515 underscores are outside the model.) -/
def pyInt? (s : String) : Option Int :=
  match pyStrip s.data with
  | '+' :: rest =>
    if rest ≠ [] ∧ rest.all Char.isDigit then some (digitsToNat rest) else none
  | '-' :: rest =>
    if rest ≠ [] ∧ rest.all Char.isDigit then some (-(digitsToNat rest : Int))
    else none
  | rest =>
    if rest ≠ [] ∧ rest.all Char.isDigit then some (digitsToNat rest) else none

/-- `validate_int(string, min, max, label)` from `data_validation.py`
lines 112-124: parse, then check the optional inclusive bounds in order
(too-low before too-high). -/
def validate_int (s : String) (min max : Option Int) (label : String) :
    Except VErr Int :=
  match pyInt? s with
  | none => .error (.unsupported label s "integer")
  | some i =>
    match min with
    | some m =>
      if i < m then .error (.tooLow label i m)
      else
        match max with
        | some mx => if mx < i then .error (.tooHigh label i mx) else .ok i
        | none => .ok i
    | none =>
      match max with
      | some mx => if mx < i then .error (.tooHigh label i mx) else .ok i
      | none => .ok i

lemma filterMap_id_cons_none {α : Type} (t : List (Option α)) :
    List.filterMap id (none :: t) = List.filterMap id t := by
  simp

lemma filterMap_id_cons_some {α : Type} (a : α) (t : List (Option α)) :
    List.filterMap id (some a :: t) = a :: List.filterMap id t := by
  simp

lemma cfcFirstConflict_eq_none {α : Type} [DecidableEq α] {obj1 : α}
    {t : List (Option α)} (h : cfcFirstConflict obj1 t = none) :
    ∀ b ∈ t.filterMap id, obj1 = b := by
  induction t with
  | nil => intro b hb; simp at hb
  | cons hd tl ih =>
    cases hd with
    | none =>
      rw [cfcFirstConflict] at h
      intro b hb
      rw [filterMap_id_cons_none] at hb
      exact ih h b hb
    | some a =>
      rw [cfcFirstConflict] at h
      rcases eq_or_ne obj1 a with rfl | hne
      · simp only [ne_eq, not_true_eq_false, if_false] at h
        intro b hb
        rw [filterMap_id_cons_some] at hb
        rcases List.mem_cons.mp hb with rfl | hb
        · rfl
        · exact ih h b hb
      · rw [if_pos hne] at h
        exact absurd h (by simp)

lemma cfcFirstConflict_eq_some {α : Type} [DecidableEq α] {obj1 : α}
    {t : List (Option α)} {e : ValueMismatch α}
    (h : cfcFirstConflict obj1 t = some e) :
    e.first = obj1 ∧ e.second ∈ t.filterMap id ∧ e.first ≠ e.second := by
  induction t with
  | nil => simp [cfcFirstConflict] at h
  | cons hd tl ih =>
    cases hd with
    | none =>
      rw [cfcFirstConflict] at h
      have := ih h
      rw [filterMap_id_cons_none]
      exact this
    | some a =>
      rw [cfcFirstConflict] at h
      rcases eq_or_ne obj1 a with rfl | hne
      · simp only [ne_eq, not_true_eq_false, if_false] at h
        have := ih h
        refine ⟨this.1, ?_, this.2.2⟩
        rw [filterMap_id_cons_some]
        exact List.mem_cons_of_mem _ this.2.1
      · rw [if_pos hne] at h
        cases h
        refine ⟨rfl, ?_, hne⟩
        rw [filterMap_id_cons_some]
        exact List.mem_cons_self _ _

lemma cfcLoop_all_eq {α : Type} [DecidableEq α] {v : α}
    (li : List (Option α)) (acc : Option α)
    (h : ∀ a ∈ li.filterMap id, a = v) :
    cfcLoop li acc =
      .ok (if li.filterMap id = [] then acc else some v) := by
  induction li generalizing acc with
  | nil => simp [cfcLoop]
  | cons hd tl ih =>
    cases hd with
    | none =>
      rw [cfcLoop, filterMap_id_cons_none]
      exact ih acc (by rw [filterMap_id_cons_none] at h; exact h)
    | some a =>
      rw [filterMap_id_cons_some] at h
      have ha : a = v := h a (List.mem_cons_self _ _)
      subst ha
      rw [cfcLoop]
      have htl : ∀ b ∈ tl.filterMap id, b = a :=
        fun b hb => h b (List.mem_cons_of_mem _ hb)
      have hnone : cfcFirstConflict a tl = none := by
        cases hc : cfcFirstConflict a tl with
        | none => rfl
        | some e =>
          have he := cfcFirstConflict_eq_some hc
          exact absurd (he.1 ▸ (htl e.second he.2.1).symm) he.2.2
      rw [hnone, ih (some a) htl, filterMap_id_cons_some]
      by_cases hfm : tl.filterMap id = [] <;> simp [hfm]

lemma cfcLoop_conflict {α : Type} [DecidableEq α]
    (li : List (Option α)) (acc : Option α)
    {a b : α} (ha : a ∈ li.filterMap id) (hb : b ∈ li.filterMap id)
    (hab : a ≠ b) :
    ∃ e : ValueMismatch α, cfcLoop li acc = .error e ∧
      e.first ∈ li.filterMap id ∧ e.second ∈ li.filterMap id ∧
      e.first ≠ e.second := by
  induction li generalizing acc with
  | nil => simp at ha
  | cons hd tl ih =>
    cases hd with
    | none =>
      rw [filterMap_id_cons_none] at ha hb ⊢
      rw [cfcLoop]
      exact ih acc ha hb
    | some a0 =>
      rw [cfcLoop]
      rw [filterMap_id_cons_some] at ha hb ⊢
      cases hc : cfcFirstConflict a0 tl with
      | some e =>
        have he := cfcFirstConflict_eq_some hc
        refine ⟨e, rfl, ?_, ?_, he.2.2⟩
        · exact he.1 ▸ List.mem_cons_self _ _
        · exact List.mem_cons_of_mem _ he.2.1
      | none =>
        exfalso
        have hall := cfcFirstConflict_eq_none hc
        have haa : a = a0 := by
          rcases List.mem_cons.mp ha with rfl | ha'
          · rfl
          · exact (hall a ha').symm
        have hbb : b = a0 := by
          rcases List.mem_cons.mp hb with rfl | hb'
          · rfl
          · exact (hall b hb').symm
        exact hab (haa.trans hbb.symm)

lemma cfcLoop_all_none {α : Type} [DecidableEq α]
    (li : List (Option α)) (acc : Option α)
    (h : ∀ x ∈ li, x = none) : cfcLoop li acc = .ok acc := by
  induction li with
  | nil => rfl
  | cons hd tl ih =>
    have hhd : hd = none := h hd (List.mem_cons_self _ _)
    subst hhd
    rw [cfcLoop]
    exact ih (fun x hx => h x (List.mem_cons_of_mem _ hx))

/-- **C5.** `check_for_conflict` over a list of only absent values returns
absent; with exactly one present value returns it regardless of position;
when all present values are pairwise equal returns the last present value;
and when some pair of present values is unequal it raises
`ValueMismatchError` carrying two unequal present values. -/
theorem check_for_conflict_spec {α : Type} [DecidableEq α] :
    (∀ li : List (Option α), (∀ x ∈ li, x = none) →
      check_for_conflict li = .ok none) ∧
    (∀ (li : List (Option α)) (v : α), li.filterMap id = [v] →
      check_for_conflict li = .ok (some v)) ∧
    (∀ li : List (Option α), li.filterMap id ≠ [] →
      (∀ a ∈ li.filterMap id, ∀ b ∈ li.filterMap id, a = b) →
      check_for_conflict li = .ok (li.filterMap id).getLast?) ∧
    (∀ (li : List (Option α)) (a b : α),
      a ∈ li.filterMap id → b ∈ li.filterMap id → a ≠ b →
      ∃ e, check_for_conflict li = .error e ∧
        e.first ∈ li.filterMap id ∧ e.second ∈ li.filterMap id ∧
        e.first ≠ e.second) := by
  refine ⟨?_, ?_, ?_, ?_⟩
  · intro li h
    exact cfcLoop_all_none li none h
  · intro li v hfm
    have h : ∀ a ∈ li.filterMap id, a = v := by
      intro a ha
      rw [hfm] at ha
      simpa using ha
    have := cfcLoop_all_eq li none h
    rw [check_for_conflict, this, hfm]
    simp
  · intro li hne hall
    obtain ⟨w, hw⟩ := List.getLast?_isSome.mpr hne |> Option.isSome_iff_exists.mp
    have hwmem : w ∈ li.filterMap id :=
      List.mem_of_mem_getLast? (by simp [hw])
    have h : ∀ a ∈ li.filterMap id, a = w := fun a ha => hall a ha w hwmem
    have := cfcLoop_all_eq li none h
    rw [check_for_conflict, this, if_neg hne, hw]
  · intro li a b ha hb hab
    exact cfcLoop_conflict li none ha hb hab

/-- Closed witness for `check_for_conflict_spec`. -/
theorem check_for_conflict_spec_witness :
    check_for_conflict ([none, some 7, none] : List (Option Int)) =
      .ok (some 7) ∧
    (∃ e, check_for_conflict ([some 1, some 2] : List (Option Int)) =
        .error e ∧
      e.first ∈ ([some 1, some 2] : List (Option Int)).filterMap id ∧
      e.second ∈ ([some 1, some 2] : List (Option Int)).filterMap id ∧
      e.first ≠ e.second) :=
  ⟨check_for_conflict_spec.2.1 [none, some 7, none] 7 (by decide),
   check_for_conflict_spec.2.2.2 [some 1, some 2] 1 2
     (by decide) (by decide) (by decide)⟩

/-- **C6.** `validate_int` returns the parsed integer when it is within the
optional inclusive bounds; raises the too-low error (with label, value and
min) when below min; raises the too-high error (with label, value and max)
when above max (and not below min, which takes precedence); and raises the
unsupported-value error when the string does not parse as an integer. -/
theorem validate_int_spec :
    (∀ (s : String) (i : Int) (mn mx : Option Int) (label : String),
      pyInt? s = some i →
      ((∀ m ∈ mn, m ≤ i) → (∀ M ∈ mx, i ≤ M) →
        validate_int s mn mx label = .ok i) ∧
      (∀ m, mn = some m → i < m →
        validate_int s mn mx label = .error (.tooLow label i m)) ∧
      (∀ M, mx = some M → (∀ m ∈ mn, m ≤ i) → M < i →
        validate_int s mn mx label = .error (.tooHigh label i M))) ∧
    (∀ (s : String) (mn mx : Option Int) (label : String),
      pyInt? s = none →
      validate_int s mn mx label = .error (.unsupported label s "integer")) := by
  constructor
  · intro s i mn mx label hp
    refine ⟨?_, ?_, ?_⟩
    · intro hmn hmx
      unfold validate_int
      rw [hp]
      cases mn with
      | none =>
        cases mx with
        | none => rfl
        | some M =>
          have : ¬ M < i := not_lt.mpr (hmx M rfl)
          simp [this]
      | some m =>
        have hm : ¬ i < m := not_lt.mpr (hmn m rfl)
        cases mx with
        | none => simp [hm]
        | some M =>
          have hM : ¬ M < i := not_lt.mpr (hmx M rfl)
          simp [hm, hM]
    · intro m hmn hlow
      unfold validate_int
      rw [hp, hmn]
      simp [hlow]
    · intro M hmx hmn hhigh
      unfold validate_int
      rw [hp, hmx]
      cases mn with
      | none => simp [hhigh]
      | some m =>
        have hm : ¬ i < m := not_lt.mpr (hmn m rfl)
        simp [hm, hhigh]
  · intro s mn mx label hp
    unfold validate_int
    rw [hp]

/-- Closed witness for `validate_int_spec`. -/
theorem validate_int_spec_witness :
    validate_int "17" (some 0) (some 100) "input" = .ok 17 ∧
    validate_int "-5" (some 0) (some 100) "input" =
      .error (.tooLow "input" (-5) 0) ∧
    validate_int "200" (some 0) (some 100) "input" =
      .error (.tooHigh "input" 200 100) ∧
    validate_int "java" none none "input" =
      .error (.unsupported "input" "java" "integer") :=
  ⟨(validate_int_spec.1 "17" 17 (some 0) (some 100) "input" (by decide)).1
      (by decide) (by decide),
   (validate_int_spec.1 "-5" (-5) (some 0) (some 100) "input"
      (by decide)).2.1 0 rfl (by decide),
   (validate_int_spec.1 "200" 200 (some 0) (some 100) "input"
      (by decide)).2.2 100 rfl (by decide) (by decide),
   validate_int_spec.2 "java" none none "input" (by decide)⟩

/-! ## natural_sort (data_validation.py lines 29-43) -/

/-- One element of an alphanum sort key: a text piece, or a digit run
converted to its integer value by `convert`. -/
inductive Seg where
  | text (cs : List Char)
  | num (n : Nat)
  deriving Repr, DecidableEq

/-- One piece of `re.split('([0-9]+)', key)`: `dig` pieces are the captured
maximal digit runs, `txt` pieces the (possibly empty) stretches between
them. -/
inductive RawSeg where
  | txt (cs : List Char)
  | dig (cs : List Char)
  deriving Repr, DecidableEq

/-- The characters of a raw piece. -/
def RawSeg.content : RawSeg → List Char
  | .txt cs => cs
  | .dig cs => cs

/-- One step of building the `re.split('([0-9]+)', key)` pieces from the
right: a digit extends the digit run in front of it, a non-digit extends
the text stretch in front of it, and a kind change opens a new piece. -/
def pushChar (c : Char) : List RawSeg → List RawSeg
  | .dig d :: t =>
    if c.isDigit then .dig (c :: d) :: t else .txt [c] :: .dig d :: t
  | .txt s :: t =>
    if c.isDigit then .dig [c] :: .txt s :: t else .txt (c :: s) :: t
  | [] => [if c.isDigit then .dig [c] else .txt [c]]

/-- Model of `re.split('([0-9]+)', key)`: maximal digit runs are captured
as separate pieces, with the (possibly empty) leading and trailing
non-match stretches retained, exactly as `re.split` with one capture group
returns them. -/
def reSplitDigits (cs : List Char) : List RawSeg :=
  match cs.foldr pushChar [.txt []] with
  | .dig d :: t => .txt [] :: .dig d :: t
  | acc => acc

/-- Exceptions escaping `sorted(l, key=alphanum_key)`: `ValueError` from
`int()` on an `isdigit` piece without decimal digits, or `TypeError` from
comparing an integer key element with a text one. -/
inductive KeyErr where
  | valueError
  | typeError
  deriving Repr, DecidableEq

/-- Model of Python's Unicode-aware `str.isdigit` on one character.
`re.split` captures only ASCII `[0-9]`, but `isdigit` also accepts
non-ASCII digit characters.  The table is exact on ASCII and lists the
non-ASCII digit characters this development evaluates on (the
Arabic-Indic decimal digits U+0660-0669 and the Latin-1 superscripts
¹ ² ³, which are digit-typed but not decimal); every theorem below either
quantifies over ASCII-only strings or uses these listed characters. -/
def pyIsDigit (c : Char) : Bool :=
  c.isDigit || decide (0x660 ≤ c.toNat ∧ c.toNat ≤ 0x669) ||
    decide (c.toNat = 0xB9 ∨ c.toNat = 0xB2 ∨ c.toNat = 0xB3)

/-- The decimal value `int()` assigns to one character (Unicode `Nd`):
ASCII `0-9` and the Arabic-Indic digits here; `none` for characters
without a decimal value — in particular the superscripts, which
`isdigit` accepts but `int()` rejects. -/
def pyDigitVal (c : Char) : Option Nat :=
  if c.isDigit then some (c.toNat - 48)
  else if 0x660 ≤ c.toNat ∧ c.toNat ≤ 0x669 then some (c.toNat - 0x660)
  else none

/-- `int(text)` over a nonempty all-`isdigit` string: the base-10 value
built from the characters' decimal values when every character has one,
else the `ValueError` case. -/
def decimalDigits? (cs : List Char) : Option Nat :=
  if cs.all (fun c => (pyDigitVal c).isSome) then
    some (cs.foldl (fun a c => a * 10 + (pyDigitVal c).getD 0) 0)
  else none

/-- `convert(text)`: `int(text) if text.isdigit() else text`, with
Python's Unicode-aware `isdigit`: a piece the ASCII split left as text
may still satisfy `isdigit` and be converted to an integer — or make
`int()` raise `ValueError` when some digit-typed character has no
decimal value. -/
def convert (cs : List Char) : Except KeyErr Seg :=
  if cs ≠ [] ∧ cs.all pyIsDigit then
    match decimalDigits? cs with
    | some n => .ok (.num n)
    | none => .error .valueError
  else .ok (.text cs)

/-- `convert` over the pieces of the split, left to right; the first
`ValueError` propagates. -/
def convertPieces : List RawSeg → Except KeyErr (List Seg)
  | [] => .ok []
  | r :: t =>
    match convert r.content with
    | .error e => .error e
    | .ok s =>
      match convertPieces t with
      | .error e => .error e
      | .ok l => .ok (s :: l)

/-- `alphanum_key(key)`: the pieces of `re.split('([0-9]+)', key)`, each
passed through `convert`; `int()`'s `ValueError` propagates. -/
def alphanum_key (s : String) : Except KeyErr (List Seg) :=
  convertPieces (reSplitDigits s.data)

/-- Three-way comparison from a linear order (the result of Python's
`<`/`>` probing on two same-type values). -/
def cmp3 {γ : Type} [LinearOrder γ] (a b : γ) : Ordering :=
  if a < b then .lt else if b < a then .gt else .eq

/-- Python's lexicographic comparison of two same-type sequences. -/
def lexCmp {γ : Type} [LinearOrder γ] : List γ → List γ → Ordering
  | [], [] => .eq
  | [], _ :: _ => .lt
  | _ :: _, [] => .gt
  | a :: as, b :: bs =>
    match cmp3 a b with
    | .eq => lexCmp as bs
    | o => o

/-- Python's comparison of two sort-key elements: strings compare
lexicographically, integers numerically, and comparing an integer with a
string raises `TypeError`, modelled as `none`. -/
def segCmp : Seg → Seg → Option Ordering
  | .text a, .text b => some (lexCmp a b)
  | .num m, .num n => some (cmp3 m n)
  | _, _ => none

/-- Python's list comparison on sort keys: element-by-element, first
difference decides, a strict prefix is smaller; a `TypeError` from an
element comparison (modelled `none`) propagates. -/
def keyCmp : List Seg → List Seg → Option Ordering
  | [], [] => some .eq
  | [], _ :: _ => some .lt
  | _ :: _, [] => some .gt
  | x :: xs, y :: ys =>
    match segCmp x y with
    | none => none
    | some .eq => keyCmp xs ys
    | some o => some o

/-- The sort-key order on strings whose keys construct successfully:
the key of `s` is not greater than the key of `t`. -/
def natLE (s t : String) : Prop :=
  ∀ ks kt, alphanum_key s = .ok ks → alphanum_key t = .ok kt →
    keyCmp ks kt ≠ some .gt

/-- Keys-not-greater relation on keyed pairs. -/
def pairLE (a b : List Seg × String) : Prop :=
  keyCmp a.1 b.1 ≠ some .gt

/-- Insert one keyed element into a sorted keyed list; a mixed-type key
comparison raises `TypeError`. -/
def ordInsertK (a : List Seg × String) :
    List (List Seg × String) → Except KeyErr (List (List Seg × String))
  | [] => .ok [a]
  | b :: t =>
    match keyCmp a.1 b.1 with
    | none => .error .typeError
    | some o =>
      if o = .gt then
        match ordInsertK a t with
        | .error e => .error e
        | .ok res => .ok (b :: res)
      else .ok (a :: b :: t)

/-- Stable sort of the keyed list by key comparison (a model of Python's
stable `sorted`), propagating `TypeError` from key comparisons. -/
def insertionSortK :
    List (List Seg × String) → Except KeyErr (List (List Seg × String))
  | [] => .ok []
  | a :: t =>
    match insertionSortK t with
    | .error e => .error e
    | .ok res => ordInsertK a res

/-- Decorate: compute each element's key, in input order; the first
`ValueError` propagates. -/
def keyPairs : List String → Except KeyErr (List (List Seg × String))
  | [] => .ok []
  | s :: t =>
    match alphanum_key s with
    | .error e => .error e
    | .ok k =>
      match keyPairs t with
      | .error e => .error e
      | .ok ps => .ok ((k, s) :: ps)

/-- `natural_sort(l)` = `sorted(l, key=alphanum_key)`: compute the keys,
sort by them, return the strings; a `ValueError` raised while building a
key and a `TypeError` raised while comparing keys propagate to the
caller. -/
def natural_sort (l : List String) : Except KeyErr (List String) :=
  match keyPairs l with
  | .error e => .error e
  | .ok ps =>
    match insertionSortK ps with
    | .error e => .error e
    | .ok res => .ok (res.map Prod.snd)

lemma cmp3_eq_iff {γ : Type} [LinearOrder γ] {a b : γ} :
    cmp3 a b = .eq ↔ a = b := by
  unfold cmp3
  rcases lt_trichotomy a b with h | rfl | h
  · simp [h, h.ne]
  · simp [lt_irrefl]
  · simp [h, h.asymm, h.ne']

lemma cmp3_lt_iff {γ : Type} [LinearOrder γ] {a b : γ} :
    cmp3 a b = .lt ↔ a < b := by
  unfold cmp3
  rcases lt_trichotomy a b with h | rfl | h
  · simp [h]
  · simp [lt_irrefl]
  · simp [h, h.asymm]

lemma cmp3_swap {γ : Type} [LinearOrder γ] (a b : γ) :
    cmp3 b a = (cmp3 a b).swap := by
  unfold cmp3
  rcases lt_trichotomy a b with h | rfl | h
  · simp [h, h.asymm, Ordering.swap]
  · simp [lt_irrefl, Ordering.swap]
  · simp [h, h.asymm, Ordering.swap]

lemma lexCmp_eq_iff {γ : Type} [LinearOrder γ] :
    ∀ (a b : List γ), lexCmp a b = .eq ↔ a = b
  | [], [] => by simp [lexCmp]
  | [], _ :: _ => by simp [lexCmp]
  | _ :: _, [] => by simp [lexCmp]
  | x :: xs, y :: ys => by
    cases hc : cmp3 x y with
    | lt =>
      have hxy : x ≠ y := fun h => by
        subst h; rw [cmp3_eq_iff.mpr rfl] at hc; cases hc
      simp [lexCmp, hc, hxy]
    | eq =>
      have hxy : x = y := cmp3_eq_iff.mp hc
      subst hxy
      simp [lexCmp, hc, lexCmp_eq_iff xs ys]
    | gt =>
      have hxy : x ≠ y := fun h => by
        subst h; rw [cmp3_eq_iff.mpr rfl] at hc; cases hc
      simp [lexCmp, hc, hxy]

lemma lexCmp_swap {γ : Type} [LinearOrder γ] :
    ∀ (a b : List γ), lexCmp b a = (lexCmp a b).swap
  | [], [] => rfl
  | [], _ :: _ => rfl
  | _ :: _, [] => rfl
  | x :: xs, y :: ys => by
    rw [lexCmp, lexCmp, cmp3_swap x y]
    cases hc : cmp3 x y with
    | lt => simp [Ordering.swap]
    | eq => simpa [Ordering.swap] using lexCmp_swap xs ys
    | gt => simp [Ordering.swap]

lemma lexCmp_lt_trans {γ : Type} [LinearOrder γ] :
    ∀ (a b c : List γ), lexCmp a b = .lt → lexCmp b c = .lt →
      lexCmp a c = .lt
  | [], [], _ => fun h1 _ => Ordering.noConfusion h1
  | [], _ :: _, [] => fun _ h2 => Ordering.noConfusion h2
  | [], _ :: _, _ :: _ => fun _ _ => rfl
  | _ :: _, [], _ => fun h1 _ => Ordering.noConfusion h1
  | _ :: _, _ :: _, [] => fun _ h2 => Ordering.noConfusion h2
  | x :: xs, y :: ys, z :: zs => by
    intro h1 h2
    rw [lexCmp] at h1 h2 ⊢
    cases hxy : cmp3 x y with
    | gt => rw [hxy] at h1; exact Ordering.noConfusion h1
    | eq =>
      rw [hxy] at h1
      have hx : x = y := cmp3_eq_iff.mp hxy
      subst hx
      cases hyz : cmp3 x z with
      | gt => rw [hyz] at h2; exact Ordering.noConfusion h2
      | eq =>
        rw [hyz] at h2
        have hy : x = z := cmp3_eq_iff.mp hyz
        subst hy
        exact lexCmp_lt_trans xs ys zs h1 h2
      | lt => rfl
    | lt =>
      cases hyz : cmp3 y z with
      | gt => rw [hyz] at h2; exact Ordering.noConfusion h2
      | eq =>
        have hy : y = z := cmp3_eq_iff.mp hyz
        subst hy
        rw [hxy]
      | lt =>
        rw [cmp3_lt_iff.mpr
          (lt_trans (cmp3_lt_iff.mp hxy) (cmp3_lt_iff.mp hyz))]

lemma segCmp_swap (x y : Seg) : segCmp y x = (segCmp x y).map Ordering.swap := by
  cases x with
  | text a =>
    cases y with
    | text b => exact congrArg some (lexCmp_swap a b)
    | num _ => rfl
  | num m =>
    cases y with
    | text _ => rfl
    | num n => exact congrArg some (cmp3_swap m n)

lemma segCmp_eq_iff {x y : Seg} : segCmp x y = some .eq ↔ x = y := by
  cases x <;> cases y <;> simp [segCmp, lexCmp_eq_iff, cmp3_eq_iff]

lemma segCmp_lt_trans {x y z : Seg} (h1 : segCmp x y = some .lt)
    (h2 : segCmp y z = some .lt) : segCmp x z = some .lt := by
  cases x with
  | text a =>
    cases y with
    | text b =>
      cases z with
      | text c =>
        simp only [segCmp, Option.some.injEq] at h1 h2 ⊢
        exact lexCmp_lt_trans a b c h1 h2
      | num _ => simp [segCmp] at h2
    | num _ => simp [segCmp] at h1
  | num m =>
    cases y with
    | num n =>
      cases z with
      | num p =>
        simp only [segCmp, Option.some.injEq] at h1 h2 ⊢
        exact cmp3_lt_iff.mpr
          (lt_trans (cmp3_lt_iff.mp h1) (cmp3_lt_iff.mp h2))
      | text _ => simp [segCmp] at h2
    | text _ => simp [segCmp] at h1

lemma keyCmp_swap : ∀ (xs ys : List Seg),
    keyCmp ys xs = (keyCmp xs ys).map Ordering.swap
  | [], [] => rfl
  | [], _ :: _ => rfl
  | _ :: _, [] => rfl
  | x :: xs, y :: ys => by
    rw [keyCmp, keyCmp, segCmp_swap x y]
    cases hc : segCmp x y with
    | none => simp
    | some o =>
      cases o with
      | lt => simp [Ordering.swap]
      | eq => simpa [Ordering.swap] using keyCmp_swap xs ys
      | gt => simp [Ordering.swap]

lemma keyCmp_trans : ∀ (xs ys zs : List Seg) (o1 o2 : Ordering),
    keyCmp xs ys = some o1 → o1 ≠ .gt → keyCmp ys zs = some o2 →
    o2 ≠ .gt → ∃ o3, keyCmp xs zs = some o3 ∧ o3 ≠ .gt
  | [], _, [] => by
    intro o1 o2 _ _ _ _; exact ⟨.eq, rfl, by decide⟩
  | [], _, _ :: _ => by
    intro o1 o2 _ _ _ _; exact ⟨.lt, rfl, by decide⟩
  | x :: xs, [], zs => by
    intro o1 o2 h1 ho1 _ _
    exact absurd (Option.some.inj h1).symm ho1
  | x :: xs, y :: ys, [] => by
    intro o1 o2 _ _ h2 ho2
    exact absurd (Option.some.inj h2).symm ho2
  | x :: xs, y :: ys, z :: zs => by
    intro o1 o2 h1 ho1 h2 ho2
    rw [keyCmp] at h1 h2 ⊢
    cases hxy : segCmp x y with
    | none => rw [hxy] at h1; exact Option.noConfusion h1
    | some oxy =>
      rw [hxy] at h1
      cases oxy with
      | gt => exact absurd (Option.some.inj h1).symm ho1
      | eq =>
        have hx : x = y := segCmp_eq_iff.mp hxy
        subst hx
        cases hyz : segCmp x z with
        | none => rw [hyz] at h2; exact Option.noConfusion h2
        | some oyz =>
          rw [hyz] at h2
          cases oyz with
          | gt => exact absurd (Option.some.inj h2).symm ho2
          | eq =>
            have hy : x = z := segCmp_eq_iff.mp hyz
            subst hy
            exact keyCmp_trans xs ys zs o1 o2 h1 ho1 h2 ho2
          | lt => exact ⟨.lt, rfl, by decide⟩
      | lt =>
        cases hyz : segCmp y z with
        | none => rw [hyz] at h2; exact Option.noConfusion h2
        | some oyz =>
          rw [hyz] at h2
          cases oyz with
          | gt => exact absurd (Option.some.inj h2).symm ho2
          | eq =>
            have hy : y = z := segCmp_eq_iff.mp hyz
            subst hy
            rw [hxy]
            exact ⟨.lt, rfl, by decide⟩
          | lt =>
            rw [segCmp_lt_trans hxy hyz]
            exact ⟨.lt, rfl, by decide⟩

/-- Shape of an alphanum sort key: text and integer segments strictly
alternate; the flag records whether a text segment is expected next, so
`SegsFrom true` keys begin with a (possibly empty) text segment. -/
inductive SegsFrom : Bool → List Seg → Prop where
  | nil (b : Bool) : SegsFrom b []
  | text (cs : List Char) (l : List Seg) :
      SegsFrom false l → SegsFrom true (.text cs :: l)
  | num (n : Nat) (l : List Seg) :
      SegsFrom true l → SegsFrom false (.num n :: l)

/-- Shape invariant of the pieces of `re.split('([0-9]+)', key)`:
digit-run pieces (nonempty, all digits) and text pieces (digit-free)
strictly alternate; the flag records whether a text piece is expected
next. -/
inductive RawFrom : Bool → List RawSeg → Prop where
  | nil (b : Bool) : RawFrom b []
  | txt (cs : List Char) (l : List RawSeg) :
      (∀ c ∈ cs, c.isDigit = false) → RawFrom false l →
      RawFrom true (.txt cs :: l)
  | dig (cs : List Char) (l : List RawSeg) :
      cs ≠ [] → (∀ c ∈ cs, c.isDigit = true) → RawFrom true l →
      RawFrom false (.dig cs :: l)

lemma pushChar_raw (c : Char) (acc : List RawSeg)
    (h : RawFrom true acc ∨ RawFrom false acc) :
    RawFrom true (pushChar c acc) ∨ RawFrom false (pushChar c acc) := by
  cases acc with
  | nil =>
    rw [pushChar]
    cases hc : c.isDigit with
    | true =>
      right
      simp only [if_pos rfl]
      exact RawFrom.dig [c] [] (by simp) (by simp [hc]) (RawFrom.nil true)
    | false =>
      left
      simp only [Bool.false_eq_true, if_neg]
      exact RawFrom.txt [c] [] (by simp [hc]) (RawFrom.nil false)
  | cons hd t =>
    cases hd with
    | txt s =>
      have hinv : (∀ x ∈ s, Char.isDigit x = false) ∧ RawFrom false t := by
        rcases h with h | h
        · cases h with
          | txt _ _ hs ht => exact ⟨hs, ht⟩
        · cases h
      rw [pushChar]
      cases hc : c.isDigit with
      | true =>
        right
        simp only [if_pos rfl]
        exact RawFrom.dig [c] (.txt s :: t) (by simp) (by simp [hc])
          (RawFrom.txt s t hinv.1 hinv.2)
      | false =>
        left
        simp only [Bool.false_eq_true, if_neg]
        exact RawFrom.txt (c :: s) t
          (by
            intro x hx
            rcases List.mem_cons.mp hx with rfl | hx
            · exact hc
            · exact hinv.1 x hx)
          hinv.2
    | dig d =>
      have hinv : d ≠ [] ∧ (∀ x ∈ d, Char.isDigit x = true) ∧
          RawFrom true t := by
        rcases h with h | h
        · cases h
        · cases h with
          | dig _ _ hne hd ht => exact ⟨hne, hd, ht⟩
      rw [pushChar]
      cases hc : c.isDigit with
      | true =>
        right
        simp only [if_pos rfl]
        exact RawFrom.dig (c :: d) t (by simp)
          (by
            intro x hx
            rcases List.mem_cons.mp hx with rfl | hx
            · exact hc
            · exact hinv.2.1 x hx)
          hinv.2.2
      | false =>
        left
        simp only [Bool.false_eq_true, if_neg]
        exact RawFrom.txt [c] (.dig d :: t) (by simp [hc])
          (RawFrom.dig d t hinv.1 hinv.2.1 hinv.2.2)

lemma foldr_pushChar_raw (cs : List Char) :
    RawFrom true (cs.foldr pushChar [.txt []]) ∨
    RawFrom false (cs.foldr pushChar [.txt []]) := by
  induction cs with
  | nil =>
    left
    exact RawFrom.txt [] [] (by simp) (RawFrom.nil false)
  | cons c t ih =>
    exact pushChar_raw c _ ih

lemma reSplitDigits_raw (cs : List Char) : RawFrom true (reSplitDigits cs) := by
  unfold reSplitDigits
  cases hacc : cs.foldr pushChar [.txt []] with
  | nil => exact RawFrom.nil true
  | cons hd t =>
    have h := foldr_pushChar_raw cs
    rw [hacc] at h
    cases hd with
    | txt s =>
      rcases h with h | h
      · exact h
      · cases h
    | dig d =>
      have hinv : d ≠ [] ∧ (∀ x ∈ d, Char.isDigit x = true) ∧
          RawFrom true t := by
        rcases h with h | h
        · cases h
        · cases h with
          | dig _ _ hne hd ht => exact ⟨hne, hd, ht⟩
      exact RawFrom.txt [] (.dig d :: t) (by simp)
        (RawFrom.dig d t hinv.1 hinv.2.1 hinv.2.2)

lemma pyIsDigit_ascii {c : Char} (h : c.toNat < 128) :
    pyIsDigit c = c.isDigit := by
  rw [pyIsDigit, decide_eq_false (by omega), decide_eq_false (by omega)]
  simp

lemma pyDigitVal_digit {c : Char} (h : c.isDigit = true) :
    pyDigitVal c = some (c.toNat - 48) := by
  rw [pyDigitVal, if_pos h]

lemma decimalDigits_of_digits (cs : List Char)
    (h : ∀ c ∈ cs, c.isDigit = true) :
    decimalDigits? cs = some (digitsToNat cs) := by
  rw [decimalDigits?]
  rw [if_pos (List.all_eq_true.mpr (fun c hc => by
    rw [pyDigitVal_digit (h c hc)]; rfl))]
  rw [digitsToNat]
  congr 1
  refine List.foldl_ext _ _ 0 (fun a c hc => ?_)
  rw [pyDigitVal_digit (h c hc)]
  rfl

lemma convert_text_ascii {cs : List Char}
    (hd : ∀ c ∈ cs, c.isDigit = false)
    (hA : ∀ c ∈ cs, c.toNat < 128) :
    convert cs = .ok (.text cs) := by
  rw [convert]
  cases cs with
  | nil => simp
  | cons c t =>
    have hnall : ¬ ((c :: t).all pyIsDigit = true) := by
      simp only [List.all_cons, Bool.and_eq_true]
      intro hall
      rw [pyIsDigit_ascii (hA c (List.mem_cons_self _ _)),
        hd c (List.mem_cons_self _ _)] at hall
      exact Bool.noConfusion hall.1
    rw [if_neg (fun hand => hnall hand.2)]

lemma convert_dig {cs : List Char} (hne : cs ≠ [])
    (hd : ∀ c ∈ cs, c.isDigit = true) :
    convert cs = .ok (.num (digitsToNat cs)) := by
  rw [convert]
  rw [if_pos ⟨hne, List.all_eq_true.mpr (fun c hc => by
    rw [pyIsDigit, hd c hc]; rfl)⟩]
  rw [decimalDigits_of_digits cs hd]

lemma convertPieces_good {b : Bool} {l : List RawSeg} (h : RawFrom b l) :
    (∀ r ∈ l, ∀ c ∈ RawSeg.content r, c.toNat < 128) →
    ∃ ks, convertPieces l = .ok ks ∧ SegsFrom b ks := by
  induction h with
  | nil b => exact fun _ => ⟨[], rfl, SegsFrom.nil b⟩
  | txt cs l hnd _ ih =>
    intro hA
    obtain ⟨ks, hks, hsf⟩ :=
      ih (fun r hr c hc => hA r (List.mem_cons_of_mem _ hr) c hc)
    have hc : convert cs = .ok (.text cs) :=
      convert_text_ascii hnd
        (fun c hc => hA _ (List.mem_cons_self _ _) c hc)
    refine ⟨.text cs :: ks, ?_, SegsFrom.text cs ks hsf⟩
    rw [convertPieces]
    simp only [RawSeg.content, hc, hks]
  | dig cs l hne hd _ ih =>
    intro hA
    obtain ⟨ks, hks, hsf⟩ :=
      ih (fun r hr c hc => hA r (List.mem_cons_of_mem _ hr) c hc)
    have hc : convert cs = .ok (.num (digitsToNat cs)) :=
      convert_dig hne hd
    refine ⟨.num (digitsToNat cs) :: ks, ?_, SegsFrom.num _ ks hsf⟩
    rw [convertPieces]
    simp only [RawSeg.content, hc, hks]

lemma pushChar_join (c : Char) (acc : List RawSeg) :
    ((pushChar c acc).map RawSeg.content).join =
      c :: (acc.map RawSeg.content).join := by
  cases acc with
  | nil => cases hc : c.isDigit <;> simp [pushChar, hc, RawSeg.content]
  | cons hd t =>
    cases hd <;> cases hc : c.isDigit <;>
      simp [pushChar, hc, RawSeg.content]

lemma foldr_pushChar_join (cs : List Char) :
    ((cs.foldr pushChar [.txt []]).map RawSeg.content).join = cs := by
  induction cs with
  | nil => rfl
  | cons c t ih => rw [List.foldr_cons, pushChar_join, ih]

lemma reSplitDigits_join (cs : List Char) :
    ((reSplitDigits cs).map RawSeg.content).join = cs := by
  have hj := foldr_pushChar_join cs
  unfold reSplitDigits
  cases hacc : cs.foldr pushChar [.txt []] with
  | nil => rw [hacc] at hj; exact hj
  | cons hd t =>
    rw [hacc] at hj
    cases hd with
    | txt s => exact hj
    | dig d => exact hj

lemma reSplitDigits_chars {cs : List Char} {r : RawSeg} {c : Char}
    (hr : r ∈ reSplitDigits cs) (hc : c ∈ RawSeg.content r) : c ∈ cs := by
  rw [← reSplitDigits_join cs]
  exact List.mem_join.mpr
    ⟨RawSeg.content r, List.mem_map_of_mem _ hr, hc⟩

lemma alphanum_key_ascii (s : String)
    (h : ∀ c ∈ s.data, c.toNat < 128) :
    ∃ k, alphanum_key s = .ok k ∧ SegsFrom true k :=
  convertPieces_good (reSplitDigits_raw s.data)
    (fun r hr c hc => h c (reSplitDigits_chars hr hc))

lemma keyCmp_isSome {b : Bool} {xs ys : List Seg}
    (hx : SegsFrom b xs) (hy : SegsFrom b ys) :
    (keyCmp xs ys).isSome = true := by
  induction hx generalizing ys with
  | nil b => cases ys <;> simp [keyCmp]
  | text cs l _ ih =>
    cases hy with
    | nil => simp [keyCmp]
    | text cs' l' hl' =>
      cases hc : lexCmp cs cs' with
      | lt => simp [keyCmp, segCmp, hc]
      | eq => simpa [keyCmp, segCmp, hc] using ih hl'
      | gt => simp [keyCmp, segCmp, hc]
  | num n l _ ih =>
    cases hy with
    | nil => simp [keyCmp]
    | num n' l' hl' =>
      cases hc : cmp3 n n' with
      | lt => simp [keyCmp, segCmp, hc]
      | eq => simpa [keyCmp, segCmp, hc] using ih hl'
      | gt => simp [keyCmp, segCmp, hc]

lemma ordInsertK_good (a : List Seg × String)
    (t : List (List Seg × String)) (ha : SegsFrom true a.1) :
    (∀ p ∈ t, SegsFrom true p.1) → t.Pairwise pairLE →
    ∃ res, ordInsertK a t = .ok res ∧ res.Perm (a :: t) ∧
      res.Pairwise pairLE := by
  induction t with
  | nil =>
    exact fun _ _ =>
      ⟨[a], rfl, List.Perm.refl _, List.pairwise_singleton _ _⟩
  | cons b t' ih =>
    intro ht hsort
    have hb : SegsFrom true b.1 := ht b (List.mem_cons_self _ _)
    have ht' : ∀ p ∈ t', SegsFrom true p.1 :=
      fun p hp => ht p (List.mem_cons_of_mem _ hp)
    have hsort' : t'.Pairwise pairLE := hsort.of_cons
    have hbt' : ∀ p ∈ t', pairLE b p :=
      fun p hp => List.rel_of_pairwise_cons hsort hp
    obtain ⟨o, ho⟩ :=
      Option.isSome_iff_exists.mp (keyCmp_isSome ha hb)
    by_cases hgt : o = Ordering.gt
    · subst hgt
      obtain ⟨res', hres', hperm', hsort''⟩ := ih ht' hsort'
      refine ⟨b :: res', ?_, ?_, ?_⟩
      · rw [ordInsertK]
        simp only [ho, hres', if_true]
      · exact (hperm'.cons b).trans (List.Perm.swap a b t')
      · refine List.Pairwise.cons ?_ hsort''
        intro p hp
        rcases List.mem_cons.mp (hperm'.subset hp) with heq | hp'
        · rw [heq, pairLE]
          have hswap : keyCmp b.1 a.1 = some Ordering.lt := by
            rw [keyCmp_swap, ho]
            rfl
          rw [hswap]
          intro hcon
          exact Ordering.noConfusion (Option.some.inj hcon)
        · exact hbt' p hp'
    · refine ⟨a :: b :: t', ?_, List.Perm.refl _, ?_⟩
      · rw [ordInsertK]
        simp only [ho, if_neg hgt]
      · refine List.Pairwise.cons ?_ hsort
        intro p hp
        rcases List.mem_cons.mp hp with rfl | hp'
        · rw [pairLE, ho]
          intro hcon
          exact hgt (Option.some.inj hcon)
        · have hpg : SegsFrom true p.1 := ht' p hp'
          obtain ⟨o2, ho2⟩ :=
            Option.isSome_iff_exists.mp (keyCmp_isSome hb hpg)
          have ho2' : o2 ≠ Ordering.gt :=
            fun hh => (hbt' p hp') (hh ▸ ho2)
          obtain ⟨o3, ho3, ho3'⟩ :=
            keyCmp_trans a.1 b.1 p.1 o o2 ho hgt ho2 ho2'
          rw [pairLE, ho3]
          intro hcon
          exact ho3' (Option.some.inj hcon)

lemma insertionSortK_good (ps : List (List Seg × String)) :
    (∀ p ∈ ps, SegsFrom true p.1) →
    ∃ res, insertionSortK ps = .ok res ∧ res.Perm ps ∧
      res.Pairwise pairLE := by
  induction ps with
  | nil => exact fun _ => ⟨[], rfl, List.Perm.refl _, List.Pairwise.nil⟩
  | cons a t ih =>
    intro hg
    obtain ⟨res', h1, hperm, hsort⟩ :=
      ih (fun p hp => hg p (List.mem_cons_of_mem _ hp))
    have hres'g : ∀ p ∈ res', SegsFrom true p.1 :=
      fun p hp => hg p (List.mem_cons_of_mem _ (hperm.subset hp))
    obtain ⟨res, h2, hperm2, hsort2⟩ :=
      ordInsertK_good a res' (hg a (List.mem_cons_self _ _)) hres'g hsort
    refine ⟨res, ?_, hperm2.trans (hperm.cons a), hsort2⟩
    rw [insertionSortK]
    simp only [h1]
    exact h2

lemma keyPairs_ascii (l : List String) :
    (∀ s ∈ l, ∀ c ∈ s.data, c.toNat < 128) →
    ∃ ps, keyPairs l = .ok ps ∧ ps.map Prod.snd = l ∧
      ∀ p ∈ ps, alphanum_key p.2 = .ok p.1 ∧ SegsFrom true p.1 := by
  induction l with
  | nil =>
    exact fun _ => ⟨[], rfl, rfl, fun p hp => absurd hp (List.not_mem_nil p)⟩
  | cons s t ih =>
    intro h
    obtain ⟨k, hk, hsf⟩ := alphanum_key_ascii s (h s (List.mem_cons_self _ _))
    obtain ⟨ps, hps, hmap, hfacts⟩ :=
      ih (fun x hx => h x (List.mem_cons_of_mem _ hx))
    refine ⟨(k, s) :: ps, ?_, ?_, ?_⟩
    · rw [keyPairs]
      simp only [hk, hps]
    · rw [List.map_cons, hmap]
    · intro p hp
      rcases List.mem_cons.mp hp with rfl | hp'
      · exact ⟨hk, hsf⟩
      · exact hfacts p hp'

/-- **C9 counterexample.** Python's `str.isdigit` is Unicode-aware: the
sort key of "٥" (Arabic-Indic five) is `[5]` — it begins with an
integer segment, not a (possibly empty) text segment — and comparing it
with the key of "a" is exactly the mixed-type comparison (`TypeError`,
modelled `none`). -/
theorem alphanum_key_unicode_counterexample :
    alphanum_key "٥" = .ok [Seg.num 5] ∧
    alphanum_key "a" = .ok [Seg.text ['a']] ∧
    keyCmp [Seg.num 5] [Seg.text ['a']] = none :=
  ⟨rfl, rfl, rfl⟩

/-- **C9 (amended).** Restricted to ASCII strings, `natural_sort` is
total: the key of any ASCII string constructs successfully and strictly
alternates text and integer segments beginning with a (possibly empty)
text segment, and comparing two such keys never reaches a mixed-type
comparison.  (For strings with non-ASCII digit characters the key can
instead begin with an integer and the sort can raise — see the
counterexample.) -/
theorem natural_sort_total :
    (∀ s : String, (∀ c ∈ s.data, c.toNat < 128) →
      ∃ k, alphanum_key s = .ok k ∧ SegsFrom true k) ∧
    (∀ s t : String, (∀ c ∈ s.data, c.toNat < 128) →
      (∀ c ∈ t.data, c.toNat < 128) →
      ∃ ks kt, alphanum_key s = .ok ks ∧ alphanum_key t = .ok kt ∧
        (keyCmp ks kt).isSome = true) := by
  constructor
  · exact alphanum_key_ascii
  · intro s t hs ht
    obtain ⟨ks, hks, hsf⟩ := alphanum_key_ascii s hs
    obtain ⟨kt, hkt, htf⟩ := alphanum_key_ascii t ht
    exact ⟨ks, kt, hks, hkt, keyCmp_isSome hsf htf⟩

/-- Closed witness for `natural_sort_total`. -/
theorem natural_sort_total_witness :
    (∃ k, alphanum_key "item2" = .ok k ∧ SegsFrom true k) ∧
    (∃ ks kt, alphanum_key "item2" = .ok ks ∧
      alphanum_key "x1" = .ok kt ∧ (keyCmp ks kt).isSome = true) :=
  ⟨natural_sort_total.1 "item2" (by decide),
   natural_sort_total.2 "item2" "x1" (by decide) (by decide)⟩

/-- **C7 counterexample.** `natural_sort` does not sort every list of
strings: on `["٥", "a"]` the key comparison mixes an integer with a
string and the sort raises `TypeError`; on `["²"]` key construction
itself raises `ValueError` (`'²'.isdigit()` is true but `int('²')`
fails). -/
theorem natural_sort_unicode_counterexample :
    natural_sort ["٥", "a"] = .error .typeError ∧
    natural_sort ["²"] = .error .valueError :=
  ⟨rfl, rfl⟩

/-- **C7 (amended).** `natural_sort` sorts every list of ASCII strings by
element-by-element comparison of the alphanum keys: the result is a
permutation of the input, pairwise non-descending under the key order
`natLE`; and on `["item10", "item2", "item1"]` it yields
`["item1", "item2", "item10"]`.  (On inputs with non-ASCII digit
characters it can instead raise — see the counterexample.) -/
theorem natural_sort_spec :
    (∀ l : List String, (∀ s ∈ l, ∀ c ∈ s.data, c.toNat < 128) →
      ∃ l', natural_sort l = .ok l' ∧ l'.Perm l ∧
        l'.Pairwise natLE) ∧
    natural_sort ["item10", "item2", "item1"] =
      .ok ["item1", "item2", "item10"] := by
  constructor
  · intro l hA
    obtain ⟨ps, hps, hmap, hfacts⟩ := keyPairs_ascii l hA
    obtain ⟨res, hres, hperm, hsort⟩ :=
      insertionSortK_good ps (fun p hp => (hfacts p hp).2)
    refine ⟨res.map Prod.snd, ?_, ?_, ?_⟩
    · rw [natural_sort]
      simp only [hps, hres]
    · exact hmap ▸ hperm.map Prod.snd
    · rw [List.pairwise_map]
      refine hsort.imp_of_mem ?_
      intro p q hp hq hrel ks kt hks hkt
      have hkp := (hfacts p (hperm.subset hp)).1
      have hkq := (hfacts q (hperm.subset hq)).1
      have hks' : ks = p.1 := (Except.ok.inj (hkp.symm.trans hks)).symm
      have hkt' : kt = q.1 := (Except.ok.inj (hkq.symm.trans hkt)).symm
      rw [hks', hkt']
      exact hrel
  · rfl

/-- Closed witness for `natural_sort_spec`. -/
theorem natural_sort_spec_witness :
    ∃ l', natural_sort ["b2", "a10"] = .ok l' ∧
      l'.Perm ["b2", "a10"] ∧ l'.Pairwise natLE :=
  natural_sort_spec.1 ["b2", "a10"] (by decide)

/-! ## helpers/helper.py : process invocation layer -/

/-- `errno.EPERM`. -/
def EPERM : Nat := 1

/-- `errno.ENOENT`. -/
def ENOENT : Nat := 2

/-- `errno.EACCES`. -/
def EACCES : Nat := 13

/-- Outcome of handing one argument vector to the OS
(`subprocess.check_call` / `subprocess.check_output`): clean exit,
an `OSError` on invocation, or a nonzero exit
(`CalledProcessError`, with the captured output when capturing). -/
inductive ExecOutcome where
  | ok (output : String)
  | osError (errno : Nat)
  | exitError (rc : Int) (output : String)
  deriving Repr, DecidableEq

/-- The exceptions surfacing from helper.py: `HelperNotFoundError`,
`HelperError` (exit code, plus captured output in capture mode), a
re-raised `OSError`, `RuntimeError`, `NotImplementedError`, and a failed
`assert`. -/
inductive PyErr where
  | helperNotFound (errno : Nat)
  | helperError (rc : Int) (out : Option String)
  | osError (errno : Nat)
  | runtimeError
  | notImplementedError
  | assertionError
  deriving Repr, DecidableEq

/-- `bytes.decode('ascii', 'ignore')`: non-ASCII input bytes are dropped. -/
def decodeAsciiIgnore (s : String) : String :=
  String.mk (s.data.filter (fun c => c.toNat < 128))

/-- `check_call(args, require_success, retry_with_sudo)`
(helper.py lines 428-477).  The environment `ex` supplies the OS outcome
of each argument vector.  Besides the Python result, the model returns
the list of argument vectors actually handed to the OS, in order. -/
def check_call (ex : List String → ExecOutcome) (args : List String)
    (require_success retry_with_sudo : Bool) :
    Except PyErr Unit × List (List String) :=
  match ex args with
  | .ok _ => (.ok (), [args])
  | .osError e =>
    if h : retry_with_sudo ∧ (e = EPERM ∨ e = EACCES) then
      let r := check_call ex ("sudo" :: args) require_success false
      (r.1, args :: r.2)
    else if e ≠ ENOENT then (.error (.osError e), [args])
    else (.error (.helperNotFound e), [args])
  | .exitError rc _ =>
    if require_success then
      if h2 : retry_with_sudo then
        let r := check_call ex ("sudo" :: args) require_success false
        (r.1, args :: r.2)
      else (.error (.helperError rc none), [args])
    else (.ok (), [args])
termination_by (if retry_with_sudo then 1 else 0)
decreasing_by
  · simp [h.1]
  · simp [h2]

/-- `check_output(args, require_success, retry_with_sudo)`
(helper.py lines 480-528): stderr is merged into stdout, a clean exit's
output is decoded permissively (`'ascii', 'ignore'`), and — unlike
`check_call` — the `OSError` handler has no sudo retry: any `OSError`
other than `ENOENT` is re-raised as-is. -/
def check_output (ex : List String → ExecOutcome) (args : List String)
    (require_success retry_with_sudo : Bool) :
    Except PyErr String × List (List String) :=
  match ex args with
  | .ok out => (.ok (decodeAsciiIgnore out), [args])
  | .osError e =>
    if e ≠ ENOENT then (.error (.osError e), [args])
    else (.error (.helperNotFound e), [args])
  | .exitError rc out =>
    if require_success then
      if h2 : retry_with_sudo then
        let r := check_output ex ("sudo" :: args) require_success false
        (r.1, args :: r.2)
      else (.error (.helperError rc (some out)), [args])
    else (.ok out, [args])
termination_by (if retry_with_sudo then 1 else 0)
decreasing_by
  · simp [h2]

lemma check_call_cleared_trace (ex : List String → ExecOutcome)
    (args : List String) (rs : Bool) :
    (check_call ex args rs false).2 = [args] := by
  rw [check_call]
  cases hex : ex args with
  | ok _ => rfl
  | osError e =>
    simp only [Bool.false_eq_true, false_and, dite_false]
    split_ifs <;> rfl
  | exitError rc out =>
    simp only [Bool.false_eq_true, dite_false]
    split_ifs <;> rfl

lemma check_output_cleared_trace (ex : List String → ExecOutcome)
    (args : List String) (rs : Bool) :
    (check_output ex args rs false).2 = [args] := by
  cases hex : ex args with
  | ok out => simp [check_output, hex]
  | osError e =>
    rw [check_output]
    simp only [hex]
    split_ifs <;> rfl
  | exitError rc out =>
    rw [check_output]
    simp only [hex]
    split_ifs <;> simp_all

/-- **C3.** For every invocation of `check_call` or `check_output`, the
sudo retry happens at most once: the OS sees either the original argument
vector alone, or the original followed by exactly one sudo-prefixed copy
(issued with `retry_with_sudo` cleared); with the flag unset only the
original vector is ever issued. -/
theorem sudo_retry_at_most_once :
    ∀ (ex : List String → ExecOutcome) (args : List String) (rs rws : Bool),
      ((check_call ex args rs rws).2 = [args] ∨
        (check_call ex args rs rws).2 = [args, "sudo" :: args]) ∧
      (rws = false → (check_call ex args rs rws).2 = [args]) ∧
      ((check_output ex args rs rws).2 = [args] ∨
        (check_output ex args rs rws).2 = [args, "sudo" :: args]) ∧
      (rws = false → (check_output ex args rs rws).2 = [args]) := by
  intro ex args rs rws
  refine ⟨?_, fun h => h ▸ check_call_cleared_trace ex args rs, ?_,
    fun h => h ▸ check_output_cleared_trace ex args rs⟩
  · cases rws with
    | false => exact Or.inl (check_call_cleared_trace ex args rs)
    | true =>
      cases hex : ex args with
      | ok out => exact Or.inl (by simp [check_call, hex])
      | osError e =>
        rw [check_call]
        simp only [hex]
        by_cases hc : e = EPERM ∨ e = EACCES
        · refine Or.inr ?_
          rw [dif_pos ⟨trivial, hc⟩]
          show args :: (check_call ex ("sudo" :: args) rs false).2 =
            [args, "sudo" :: args]
          rw [check_call_cleared_trace]
        · rw [dif_neg (fun hand => hc hand.2)]
          exact Or.inl (by split_ifs <;> rfl)
      | exitError rc out =>
        rw [check_call]
        simp only [hex]
        cases rs with
        | false => exact Or.inl (by split_ifs <;> simp_all)
        | true =>
          refine Or.inr ?_
          rw [dif_pos trivial]
          show args :: (check_call ex ("sudo" :: args) true false).2 =
            [args, "sudo" :: args]
          rw [check_call_cleared_trace]
  · cases rws with
    | false => exact Or.inl (check_output_cleared_trace ex args rs)
    | true =>
      cases hex : ex args with
      | ok out => exact Or.inl (by simp [check_output, hex])
      | osError e =>
        rw [check_output]
        simp only [hex]
        exact Or.inl (by split_ifs <;> rfl)
      | exitError rc out =>
        rw [check_output]
        simp only [hex]
        cases rs with
        | false => exact Or.inl (by split_ifs <;> simp_all)
        | true =>
          refine Or.inr ?_
          rw [dif_pos trivial]
          show args :: (check_output ex ("sudo" :: args) true false).2 =
            [args, "sudo" :: args]
          rw [check_output_cleared_trace]

/-- Closed witness for `sudo_retry_at_most_once`. -/
theorem sudo_retry_at_most_once_witness :
    (check_call (fun _ => ExecOutcome.ok "") ["x"] true false).2 = [["x"]] ∧
    (check_output (fun _ => ExecOutcome.ok "") ["x"] true false).2 =
      [["x"]] :=
  ⟨(sudo_retry_at_most_once (fun _ => ExecOutcome.ok "") ["x"] true
      false).2.1 rfl,
   (sudo_retry_at_most_once (fun _ => ExecOutcome.ok "") ["x"] true
      false).2.2.2 rfl⟩

/-- **C2 counterexample.** On a permission-denied `OSError` with
`retry_with_sudo` set, `check_output` raises the raw `OSError` without
issuing any sudo retry, while `check_call` on the identical environment
retries once with sudo prepended: the two failure contracts differ. -/
theorem check_output_eacces_counterexample :
    check_output (fun _ => .osError EACCES) ["cmd"] true true =
      (.error (.osError EACCES), [["cmd"]]) ∧
    check_call (fun _ => .osError EACCES) ["cmd"] true true =
      (.error (.osError EACCES), [["cmd"], ["sudo", "cmd"]]) := by
  constructor
  · simp [check_output, EACCES, ENOENT]
  · simp [check_call, EPERM, EACCES, ENOENT]

/-- **C2 (amended).** `check_output` matches `check_call`'s contract for
missing executables (`ENOENT` → `HelperNotFoundError`) and for nonzero
exits (one sudo retry with the flag cleared when `require_success` and
`retry_with_sudo` are set, returning the retried call's captured output;
`HelperError` without retry otherwise; silent success when
`require_success` is unset) — but on a permission-denied `OSError` it
re-raises the raw `OSError` without retrying, even when `retry_with_sudo`
is set. -/
theorem check_output_failure_contract :
    ∀ (ex : List String → ExecOutcome) (args : List String) (rs rws : Bool),
      (ex args = .osError ENOENT →
        check_output ex args rs rws =
          (.error (.helperNotFound ENOENT), [args])) ∧
      (∀ e, ex args = .osError e → e ≠ ENOENT →
        check_output ex args rs rws = (.error (.osError e), [args])) ∧
      (∀ rc out, ex args = .exitError rc out → rws = true → rs = true →
        check_output ex args rs rws =
          ((check_output ex ("sudo" :: args) true false).1,
            args :: (check_output ex ("sudo" :: args) true false).2)) ∧
      (∀ rc out, ex args = .exitError rc out → rws = false → rs = true →
        check_output ex args rs rws =
          (.error (.helperError rc (some out)), [args])) ∧
      (∀ rc out, ex args = .exitError rc out → rs = false →
        check_output ex args rs rws = (.ok out, [args])) := by
  intro ex args rs rws
  refine ⟨?_, ?_, ?_, ?_, ?_⟩
  · intro hex
    rw [check_output, hex]
    simp
  · intro e hex hne
    rw [check_output, hex]
    simp [hne]
  · intro rc out hex hrws hrs
    subst hrws; subst hrs
    rw [check_output, hex]
    simp
  · intro rc out hex hrws hrs
    subst hrws; subst hrs
    rw [check_output, hex]
    simp
  · intro rc out hex hrs
    subst hrs
    rw [check_output, hex]
    simp

/-- Closed witness for `check_output_failure_contract`. -/
theorem check_output_failure_contract_witness :
    check_output (fun _ => .osError ENOENT) ["prog"] true false =
      (.error (.helperNotFound ENOENT), [["prog"]]) ∧
    check_output (fun _ => .exitError 2 "boom") ["prog"] true false =
      (.error (.helperError 2 (some "boom")), [["prog"]]) :=
  ⟨(check_output_failure_contract (fun _ => .osError ENOENT) ["prog"]
      true false).1 rfl,
   (check_output_failure_contract (fun _ => .exitError 2 "boom") ["prog"]
      true false).2.2.2.1 2 "boom" rfl rfl rfl⟩

/-! ## helpers/helper.py : Helper entity -/

/-- Mutable per-instance state of a `Helper` object: `_name`, `_path`,
`_installed`, plus the `_provider_packages` configuration
(package-manager name to package names). -/
structure HelperState where
  name : String
  path_ : Option String
  installed_ : Option Bool
  provider_packages : List (String × List String)
  deriving Repr, DecidableEq

/-- Python truthiness of the `_path` attribute
(`None` and the empty string are falsy). -/
def optTruthy : Option String → Bool
  | none => false
  | some s => !s.isEmpty

/-- Environment of a Helper operation: the search-path probe
(`distutils.spawn.find_executable`), the same probe as it answers after a
successful installation, the optional user-interface collaborator
(`Helper.UI` with its `confirm`), the truthiness of each registered
package manager, the outcome of each `install_package` call, and the OS
subprocess outcomes. -/
structure HelperEnv where
  find : String → Option String
  findPost : String → Option String
  ui : Option (String → Bool)
  pmInstalled : String → Bool
  pkgInstall : String → String → Option PyErr
  ex : List String → ExecOutcome

/-- The `path` property (helper.py lines 212-223): memoized once truthy;
otherwise `_path` is assigned the probe result, and on a truthy result
`_installed` is set to `True`. -/
def Helper.pathGet (find : String → Option String) (h : HelperState) :
    Option String × HelperState :=
  if optTruthy h.path_ then (h.path_, h)
  else
    let p := find h.name
    if optTruthy p then (p, { h with path_ := p, installed_ := some true })
    else (p, { h with path_ := p })

/-- The `installed` property (helper.py lines 225-230): memoized
`_installed`; when unset, one access of `path` and
`self._installed = (self.path is not None)`. -/
def Helper.installedGet (find : String → Option String) (h : HelperState) :
    Bool × HelperState :=
  match h.installed_ with
  | some b => (b, h)
  | none =>
    let r := Helper.pathGet find h
    (r.1.isSome, { r.2 with installed_ := some r.1.isSome })

/-- The `installable` property (helper.py lines 232-238): true iff some
configured package manager currently resolves. -/
def Helper.installableGet (pmInstalled : String → Bool)
    (h : HelperState) : Bool :=
  h.provider_packages.any (fun pr => pmInstalled pr.1)

/-- Package loop of `_install`: install each package through one manager;
the first error propagates. -/
def installPackages (env : HelperEnv) (pm : String) :
    List String → Option PyErr
  | [] => none
  | pkg :: t =>
    match env.pkgInstall pm pkg with
    | some e => some e
    | none => installPackages env pm t

/-- `_install` (helper.py lines 308-317): for each configured provider
pair whose package manager resolves, install each named package. -/
def Helper.runInstalls (env : HelperEnv) :
    List (String × List String) → Option PyErr
  | [] => none
  | (pm, pkgs) :: t =>
    if env.pmInstalled pm then
      match installPackages env pm pkgs with
      | some e => some e
      | none => Helper.runInstalls env t
    else Helper.runInstalls env t

/-- `install()` (helper.py lines 284-306): no-op when `installed`;
`NotImplementedError` when not `installable`; otherwise `_install()`
followed by `assert self.path` — that post-install probe consults
`findPost`, the search path as updated by the installation. -/
def Helper.install (env : HelperEnv) (h : HelperState) :
    Except PyErr Unit × HelperState :=
  let r0 := Helper.installedGet env.find h
  if r0.1 then (.ok (), r0.2)
  else if !(Helper.installableGet env.pmInstalled r0.2) then
    (.error .notImplementedError, r0.2)
  else
    match Helper.runInstalls env r0.2.provider_packages with
    | some e => (.error e, r0.2)
    | none =>
      let rp := Helper.pathGet env.findPost r0.2
      if optTruthy rp.1 then (.ok (), rp.2)
      else (.error .assertionError, rp.2)

/-- Result of one `Helper.call` execution: the Python result (captured
output in capture mode, `None` otherwise), the final helper state, the
caller's `args` list object after the call (`call` mutates it in place
via `args.insert(0, self.name)`), the argument vectors handed to the OS,
and whether `install()` was invoked. -/
structure CallOutcome where
  result : Except PyErr (Option String)
  state : HelperState
  argsAfter : List String
  procTrace : List (List String)
  installInvoked : Bool
  deriving Repr

/-- Tail of `Helper.call` once the helper is available:
`args.insert(0, self.name)` then delegation to `check_output` or
`check_call` per `capture_output`. -/
def Helper.invoke (env : HelperEnv) (h : HelperState) (args : List String)
    (capture_output require_success retry_with_sudo : Bool)
    (installInvoked : Bool) : CallOutcome :=
  let args' := h.name :: args
  if capture_output then
    let r := check_output env.ex args' require_success retry_with_sudo
    ⟨r.1.map some, h, args', r.2, installInvoked⟩
  else
    let r := check_call env.ex args' require_success retry_with_sudo
    ⟨r.1.map (fun _ => (none : Option String)), h, args', r.2,
      installInvoked⟩

/-- `Helper.call(args, capture_output, **kwargs)` (helper.py lines
252-282): when `path` is falsy, a configured UI that declines aborts with
`HelperNotFoundError` before `install()`; otherwise (consent given, or no
UI configured at all) `install()` runs; then the helper's name is
inserted at position 0 of `args` and the process layer is invoked. -/
def Helper.call (env : HelperEnv) (h : HelperState) (args : List String)
    (capture_output require_success retry_with_sudo : Bool) :
    CallOutcome :=
  let rp := Helper.pathGet env.find h
  if !(optTruthy rp.1) then
    match env.ui with
    | some confirm =>
      if !(confirm (h.name ++
          " does not appear to be installed.\nTry to install it?")) then
        ⟨.error (.helperNotFound 1), rp.2, args, [], false⟩
      else
        let ri := Helper.install env rp.2
        match ri.1 with
        | .error e => ⟨.error e, ri.2, args, [], true⟩
        | .ok _ => Helper.invoke env ri.2 args capture_output
            require_success retry_with_sudo true
    | none =>
      let ri := Helper.install env rp.2
      match ri.1 with
      | .error e => ⟨.error e, ri.2, args, [], true⟩
      | .ok _ => Helper.invoke env ri.2 args capture_output
          require_success retry_with_sudo true
  else Helper.invoke env rp.2 args capture_output require_success
    retry_with_sudo false

/-! ## helpers/helper.py : Helper.mkdir -/

/-- Filesystem environment for `Helper.mkdir`: `os.path.isdir`,
`os.path.exists`, the outcome of `os.makedirs` (`none` = success,
`some errno` = `OSError`), and the subprocess outcomes for the sudo
fallback. -/
structure FsEnv where
  isdir : String → Bool
  pexists : String → Bool
  makedirs : String → Nat → Option Nat
  ex : List String → ExecOutcome

/-- `'%o' % n`: octal rendering of the permission bits. -/
def octalString (n : Nat) : String := String.mk (Nat.toDigits 8 n)

/-- `Helper.mkdir(directory, permissions=0o755)` (helper.py lines
358-386).  Besides the Python result, the model reports whether
`os.makedirs` was attempted and which argument vectors reached the OS.
Only a `HelperError` from the sudo fallback is caught (re-raising the
original `OSError`); any other exception from `check_call` propagates. -/
def Helper.mkdir (env : FsEnv) (dir : String) (perms : Nat) :
    Except PyErr Bool × Bool × List (List String) :=
  if env.isdir dir then (.ok true, false, [])
  else if env.pexists dir then (.error .runtimeError, false, [])
  else
    match env.makedirs dir perms with
    | none => (.ok true, true, [])
    | some e =>
      let r := check_call env.ex
        ["sudo", "mkdir", "-p", "--mode=" ++ octalString perms, dir]
        true false
      match r.1 with
      | .ok _ => (.ok true, true, r.2)
      | .error (.helperError _ _) => (.error (.osError e), true, r.2)
      | .error err => (.error err, true, r.2)

lemma pathGet_name (find : String → Option String) (h : HelperState) :
    (Helper.pathGet find h).2.name = h.name := by
  simp only [Helper.pathGet]
  split_ifs <;> rfl

lemma installedGet_name (find : String → Option String) (h : HelperState) :
    (Helper.installedGet find h).2.name = h.name := by
  rw [Helper.installedGet]
  cases h.installed_ with
  | some b => rfl
  | none =>
    show ({ (Helper.pathGet find h).2 with
      installed_ := some (Helper.pathGet find h).1.isSome }).name = h.name
    rw [← pathGet_name find h]

lemma install_name (env : HelperEnv) (h : HelperState) :
    (Helper.install env h).2.name = h.name := by
  simp only [Helper.install]
  by_cases h1 : (Helper.installedGet env.find h).1 = true
  · rw [if_pos h1]
    exact installedGet_name env.find h
  · rw [if_neg h1]
    by_cases h2 : (!Helper.installableGet env.pmInstalled
        (Helper.installedGet env.find h).2) = true
    · rw [if_pos h2]
      exact installedGet_name env.find h
    · rw [if_neg h2]
      cases Helper.runInstalls env
          (Helper.installedGet env.find h).2.provider_packages with
      | some e => exact installedGet_name env.find h
      | none =>
        by_cases h3 : optTruthy (Helper.pathGet env.findPost
            (Helper.installedGet env.find h).2).1 = true
        · rw [if_pos h3, pathGet_name, installedGet_name]
        · rw [if_neg h3, pathGet_name, installedGet_name]

lemma invoke_argsAfter (env : HelperEnv) (h : HelperState)
    (args : List String) (co rs rws ii : Bool) :
    (Helper.invoke env h args co rs rws ii).argsAfter = h.name :: args := by
  rw [Helper.invoke]
  split_ifs <;> rfl

lemma invoke_installInvoked (env : HelperEnv) (h : HelperState)
    (args : List String) (co rs rws ii : Bool) :
    (Helper.invoke env h args co rs rws ii).installInvoked = ii := by
  rw [Helper.invoke]
  split_ifs <;> rfl

lemma invoke_procTrace_ne (env : HelperEnv) (h : HelperState)
    (args : List String) (co rs rws ii : Bool) :
    (Helper.invoke env h args co rs rws ii).procTrace ≠ [] := by
  rw [Helper.invoke]
  split_ifs with hco
  · show (check_output env.ex (h.name :: args) rs rws).2 ≠ []
    rcases (sudo_retry_at_most_once env.ex (h.name :: args) rs rws).2.2.1
      with ht | ht <;> simp [ht]
  · show (check_call env.ex (h.name :: args) rs rws).2 ≠ []
    rcases (sudo_retry_at_most_once env.ex (h.name :: args) rs rws).1
      with ht | ht <;> simp [ht]

/-- **C10.** `Helper.call` mutates its `args` argument in place: for every
call that reaches invocation (at least one argument vector was handed to
the OS), the caller's list afterwards is the helper's name inserted at
position 0 of the original arguments. -/
theorem call_mutates_args :
    ∀ (env : HelperEnv) (h : HelperState) (args : List String)
      (co rs rws : Bool),
      (Helper.call env h args co rs rws).procTrace ≠ [] →
      (Helper.call env h args co rs rws).argsAfter = h.name :: args := by
  intro env h args co rs rws
  rw [Helper.call]
  simp only []
  cases hp : optTruthy (Helper.pathGet env.find h).1 with
  | true =>
    intro _
    simp only [Bool.not_true, Bool.false_eq_true, if_false]
    rw [invoke_argsAfter, pathGet_name]
  | false =>
    simp only [Bool.not_false, if_true]
    cases env.ui with
    | none =>
      cases hi : (Helper.install env (Helper.pathGet env.find h).2).1 with
      | error e => intro hne; exact absurd rfl hne
      | ok _ =>
        intro _
        rw [invoke_argsAfter, install_name, pathGet_name]
    | some confirm =>
      cases hc : confirm (h.name ++
          " does not appear to be installed.\nTry to install it?") with
      | false =>
        simp only [hc, Bool.not_false, if_true]
        intro hne
        exact absurd rfl hne
      | true =>
        simp only [hc, Bool.not_true, Bool.false_eq_true, if_false]
        cases hi : (Helper.install env (Helper.pathGet env.find h).2).1 with
        | error e => intro hne; exact absurd rfl hne
        | ok _ =>
          intro _
          rw [invoke_argsAfter, install_name, pathGet_name]

/-- Closed witness for `call_mutates_args`. -/
theorem call_mutates_args_witness :
    (Helper.call
      ⟨fun _ => some "/usr/bin/qemu-img", fun _ => none, none,
        fun _ => false, fun _ _ => none, fun _ => .ok ""⟩
      ⟨"qemu-img", none, none, []⟩ ["info", "disk.vmdk"] true true
      false).argsAfter = ["qemu-img", "info", "disk.vmdk"] :=
  call_mutates_args _ _ ["info", "disk.vmdk"] true true false
    (invoke_procTrace_ne
      ⟨fun _ => some "/usr/bin/qemu-img", fun _ => none, none,
        fun _ => false, fun _ _ => none, fun _ => .ok ""⟩
      ⟨"qemu-img", some "/usr/bin/qemu-img", some true, []⟩
      ["info", "disk.vmdk"] true true false false)

/-- **C1 counterexample.** With no UI configured (`Helper.UI is None`) and
a name that does not resolve, `call` does not raise
`HelperNotFoundError`: the consent check `self.UI and not
self.UI.confirm(...)` is skipped, `install()` IS invoked, and for a
helper with no install strategy the call surfaces its
`NotImplementedError`. -/
theorem call_no_ui_counterexample :
    (Helper.call
      ⟨fun _ => none, fun _ => none, none, fun _ => false,
        fun _ _ => none, fun _ => .ok ""⟩
      ⟨"frobnicator", none, none, []⟩ ["-v"] true true false).result =
      .error .notImplementedError ∧
    (Helper.call
      ⟨fun _ => none, fun _ => none, none, fun _ => false,
        fun _ _ => none, fun _ => .ok ""⟩
      ⟨"frobnicator", none, none, []⟩ ["-v"] true true false).installInvoked
      = true :=
  ⟨rfl, rfl⟩

/-- **C1 (amended).** For a Helper whose name does not resolve: when a UI
is configured and its `confirm` declines, `call` fails with
`HelperNotFoundError` without invoking `install()`; when no UI is
configured the consent check is skipped and `install()` IS invoked
(absence of the collaborator acts as an automatic "yes"), so a
non-installable helper surfaces `NotImplementedError` rather than
`HelperNotFoundError`. -/
theorem call_uninstalled_spec :
    ∀ (env : HelperEnv) (h : HelperState) (args : List String)
      (co rs rws : Bool),
      env.find h.name = none → h.path_ = none →
      ((∀ confirm, env.ui = some confirm →
          confirm (h.name ++
            " does not appear to be installed.\nTry to install it?") =
            false →
          (Helper.call env h args co rs rws).result =
            .error (.helperNotFound 1) ∧
          (Helper.call env h args co rs rws).installInvoked = false) ∧
        (env.ui = none →
          (Helper.call env h args co rs rws).installInvoked = true) ∧
        (env.ui = none → h.installed_ ≠ some true →
          Helper.installableGet env.pmInstalled h = false →
          (Helper.call env h args co rs rws).result =
            .error .notImplementedError)) := by
  intro env h args co rs rws hfind hpath
  have hrp : Helper.pathGet env.find h =
      (none, { h with path_ := none }) := by
    rw [Helper.pathGet]
    rw [if_neg (by rw [hpath]; exact Bool.false_ne_true)]
    simp only [hfind]
    rfl
  have hstate : ({ h with path_ := none } : HelperState) = h := by
    cases h
    simp_all
  rw [hstate] at hrp
  refine ⟨?_, ?_, ?_⟩
  · intro confirm hui hconf
    rw [Helper.call]
    simp only [hrp, hui, hconf]
    exact ⟨rfl, rfl⟩
  · intro hui
    rw [Helper.call]
    simp only [hrp, hui]
    cases hi : (Helper.install env h).1 with
    | error e => simp [optTruthy]
    | ok _ => simp [optTruthy, invoke_installInvoked]
  · intro hui hinst hinstallable
    have hinstalled : (Helper.installedGet env.find h).1 = false := by
      rw [Helper.installedGet]
      cases hb : h.installed_ with
      | some b =>
        cases b with
        | true => exact absurd hb hinst
        | false => rfl
      | none => simp [hrp]
    have hinstall : (Helper.install env h).1 =
        .error .notImplementedError := by
      rw [Helper.install]
      rw [if_neg (by rw [hinstalled]; exact Bool.false_ne_true)]
      have hname2 : (Helper.installedGet env.find h).2.provider_packages =
          h.provider_packages := by
        rw [Helper.installedGet]
        cases h.installed_ with
        | some b => rfl
        | none => simp only [hrp]
      have : Helper.installableGet env.pmInstalled
          (Helper.installedGet env.find h).2 = false := by
        rw [Helper.installableGet, hname2]
        rw [Helper.installableGet] at hinstallable
        exact hinstallable
      rw [if_pos (by rw [this]; rfl)]
    rw [Helper.call]
    simp only [hrp, hui, hinstall]
    simp [optTruthy]

/-- Closed witness for `call_uninstalled_spec`. -/
theorem call_uninstalled_spec_witness :
    ((Helper.call
      ⟨fun _ => none, fun _ => none, some (fun _ => false),
        fun _ => false, fun _ _ => none, fun _ => .ok ""⟩
      ⟨"ovftool", none, none, []⟩ ["-h"] true true false).result =
      .error (.helperNotFound 1) ∧
     (Helper.call
      ⟨fun _ => none, fun _ => none, some (fun _ => false),
        fun _ => false, fun _ _ => none, fun _ => .ok ""⟩
      ⟨"ovftool", none, none, []⟩ ["-h"] true true false).installInvoked =
      false) ∧
    (Helper.call
      ⟨fun _ => none, fun _ => none, none, fun _ => false,
        fun _ _ => none, fun _ => .ok ""⟩
      ⟨"ovftool", none, none, []⟩ ["-h"] true true false).result =
      .error .notImplementedError :=
  ⟨(call_uninstalled_spec
      ⟨fun _ => none, fun _ => none, some (fun _ => false),
        fun _ => false, fun _ _ => none, fun _ => .ok ""⟩
      ⟨"ovftool", none, none, []⟩ ["-h"] true true false rfl rfl).1
      (fun _ => false) rfl rfl,
   (call_uninstalled_spec
      ⟨fun _ => none, fun _ => none, none,
        fun _ => false, fun _ _ => none, fun _ => .ok ""⟩
      ⟨"ovftool", none, none, []⟩ ["-h"] true true false rfl rfl).2.2
      rfl (by decide) rfl⟩

/-- **C4 counterexample.** A first read of `installed` on a missing
program caches `_installed = False`; after the program appears on the
search path (the probe now resolves, as the final conjunct shows), a
repeated read of `installed` alone still returns the cached `False`. -/
theorem installed_cached_false_counterexample :
    (Helper.installedGet (fun _ => none)
        ⟨"genisoimage", none, none, []⟩).1 = false ∧
    (Helper.installedGet (fun _ => some "/usr/bin/genisoimage")
        (Helper.installedGet (fun _ => none)
          ⟨"genisoimage", none, none, []⟩).2).1 = false ∧
    (Helper.pathGet (fun _ => some "/usr/bin/genisoimage")
        (Helper.installedGet (fun _ => none)
          ⟨"genisoimage", none, none, []⟩).2).1 =
      some "/usr/bin/genisoimage" :=
  ⟨rfl, rfl, rfl⟩

/-- **C4 (amended).** On first access `installed` is true iff `path`
resolves, and the result — true or false alike — is memoized: later reads
of `installed` alone return the cached value whatever the search path now
says.  A helper that first reported false reports true only after the
`path` property itself is accessed again: `path` re-probes while `_path`
is unset and, on a (truthy) hit, caches the path and sets `_installed`
to `True`. -/
theorem installed_spec :
    ∀ (find find2 : String → Option String) (h : HelperState),
      (h.installed_ = none → h.path_ = none →
        (Helper.installedGet find h).1 = (find h.name).isSome) ∧
      (∀ b, h.installed_ = some b → Helper.installedGet find2 h = (b, h)) ∧
      (h.path_ = none → ∀ p, find2 h.name = some p → p.isEmpty = false →
        (Helper.pathGet find2 h).1 = some p ∧
        (Helper.pathGet find2 h).2.installed_ = some true ∧
        ∀ find3,
          (Helper.installedGet find3 (Helper.pathGet find2 h).2).1 =
            true) := by
  intro find find2 h
  refine ⟨?_, ?_, ?_⟩
  · intro hinst hpath
    rw [Helper.installedGet]
    rw [hinst]
    rw [Helper.pathGet]
    rw [if_neg (by rw [hpath]; exact Bool.false_ne_true)]
    cases hf : find h.name with
    | none => simp [optTruthy]
    | some p =>
      by_cases hp : optTruthy (some p) = true
      · simp [hp]
      · simp [hp]
  · intro b hb
    rw [Helper.installedGet, hb]
  · intro hpath p hf hne
    have hopt : optTruthy (some p) = true := by
      rw [optTruthy, hne]
      rfl
    have hpg : Helper.pathGet find2 h =
        (some p, { h with path_ := some p, installed_ := some true }) := by
      rw [Helper.pathGet]
      rw [if_neg (by rw [hpath]; exact Bool.false_ne_true)]
      simp only [hf, hopt, if_true]
    refine ⟨by rw [hpg], by rw [hpg], ?_⟩
    intro find3
    rw [hpg, Helper.installedGet]

/-- Closed witness for `installed_spec`. -/
theorem installed_spec_witness :
    (Helper.installedGet (fun _ => some "/usr/bin/mkisofs")
        ⟨"mkisofs", none, none, []⟩).1 =
      ((fun (_ : String) => some "/usr/bin/mkisofs")
        "mkisofs").isSome ∧
    Helper.installedGet (fun _ => none)
        ⟨"mkisofs", none, some true, []⟩ =
      (true, ⟨"mkisofs", none, some true, []⟩) ∧
    (Helper.installedGet (fun _ => none)
        (Helper.pathGet (fun _ => some "/usr/bin/mkisofs")
          ⟨"mkisofs", none, some false, []⟩).2).1 = true :=
  ⟨(installed_spec (fun _ => some "/usr/bin/mkisofs") (fun _ => none)
      ⟨"mkisofs", none, none, []⟩).1 rfl rfl,
   (installed_spec (fun _ => some "/usr/bin/mkisofs") (fun _ => none)
      ⟨"mkisofs", none, some true, []⟩).2.1 true rfl,
   ((installed_spec (fun _ => none) (fun _ => some "/usr/bin/mkisofs")
      ⟨"mkisofs", none, some false, []⟩).2.2 rfl "/usr/bin/mkisofs" rfl
      rfl).2.2 (fun _ => none)⟩

lemma check_call_eval_ok {ex : List String → ExecOutcome}
    {a : List String} {out : String} (hex : ex a = .ok out) :
    check_call ex a true false = (.ok (), [a]) := by
  rw [check_call]
  simp only [hex]

lemma check_call_eval_exit {ex : List String → ExecOutcome}
    {a : List String} {rc : Int} {out : String}
    (hex : ex a = .exitError rc out) :
    check_call ex a true false = (.error (.helperError rc none), [a]) := by
  rw [check_call]
  simp only [hex]
  simp

lemma check_call_eval_os {ex : List String → ExecOutcome}
    {a : List String} {e : Nat} (hex : ex a = .osError e)
    (hne : e ≠ ENOENT) :
    check_call ex a true false = (.error (.osError e), [a]) := by
  rw [check_call]
  simp only [hex]
  simp [hne]

lemma check_call_eval_enoent {ex : List String → ExecOutcome}
    {a : List String} (hex : ex a = .osError ENOENT) :
    check_call ex a true false = (.error (.helperNotFound ENOENT), [a]) := by
  rw [check_call]
  simp only [hex]
  simp

/-- **C8 counterexample.** When plain creation fails with `EACCES` and the
elevated retry itself fails because `sudo` cannot be invoked (`OSError
ENOENT` from `check_call`, translated to `HelperNotFoundError`), `mkdir`
propagates that escalated error instead of re-raising the original
creation error. -/
theorem mkdir_sudo_missing_counterexample :
    (Helper.mkdir ⟨fun _ => false, fun _ => false, fun _ _ => some EACCES,
        fun _ => .osError ENOENT⟩ "/opt/cot" 493).1 =
      .error (.helperNotFound ENOENT) ∧
    (Helper.mkdir ⟨fun _ => false, fun _ => false, fun _ _ => some EACCES,
        fun _ => .osError ENOENT⟩ "/opt/cot" 493).1 ≠
      .error (.osError EACCES) := by
  have h : (Helper.mkdir ⟨fun _ => false, fun _ => false,
      fun _ _ => some EACCES, fun _ => .osError ENOENT⟩ "/opt/cot" 493).1 =
      .error (.helperNotFound ENOENT) := by
    rw [Helper.mkdir]
    simp only [Bool.false_eq_true, if_false]
    rw [check_call_eval_enoent rfl]
  exact ⟨h, by rw [h]; exact fun hc => PyErr.noConfusion (Except.error.inj hc)⟩

/-- **C8 (amended).** `mkdir` succeeds without touching anything when the
target is already a directory; fails immediately (no creation attempt, no
retry) when the target exists as a non-directory; otherwise attempts
plain creation, and on failure retries exactly once via
`sudo mkdir -p --mode=<octal>`: if the retry exits nonzero
(`HelperError`), the *original* `OSError` is re-raised; but a failure to
invoke the elevated command at all (e.g. sudo missing or another
`OSError`) propagates as the escalated error instead of the original. -/
theorem mkdir_spec :
    ∀ (env : FsEnv) (dir : String) (perms : Nat),
      (env.isdir dir = true →
        Helper.mkdir env dir perms = (.ok true, false, [])) ∧
      (env.isdir dir = false → env.pexists dir = true →
        Helper.mkdir env dir perms = (.error .runtimeError, false, [])) ∧
      (env.isdir dir = false → env.pexists dir = false →
        env.makedirs dir perms = none →
        Helper.mkdir env dir perms = (.ok true, true, [])) ∧
      (∀ e out, env.isdir dir = false → env.pexists dir = false →
        env.makedirs dir perms = some e →
        env.ex ["sudo", "mkdir", "-p", "--mode=" ++ octalString perms,
          dir] = .ok out →
        Helper.mkdir env dir perms = (.ok true, true,
          [["sudo", "mkdir", "-p", "--mode=" ++ octalString perms,
            dir]])) ∧
      (∀ e rc out, env.isdir dir = false → env.pexists dir = false →
        env.makedirs dir perms = some e →
        env.ex ["sudo", "mkdir", "-p", "--mode=" ++ octalString perms,
          dir] = .exitError rc out →
        Helper.mkdir env dir perms = (.error (.osError e), true,
          [["sudo", "mkdir", "-p", "--mode=" ++ octalString perms,
            dir]])) ∧
      (∀ e, env.isdir dir = false → env.pexists dir = false →
        env.makedirs dir perms = some e →
        env.ex ["sudo", "mkdir", "-p", "--mode=" ++ octalString perms,
          dir] = .osError ENOENT →
        Helper.mkdir env dir perms = (.error (.helperNotFound ENOENT),
          true,
          [["sudo", "mkdir", "-p", "--mode=" ++ octalString perms,
            dir]])) := by
  intro env dir perms
  refine ⟨?_, ?_, ?_, ?_, ?_, ?_⟩
  · intro hd
    rw [Helper.mkdir, if_pos hd]
  · intro hd he
    rw [Helper.mkdir]
    simp only [hd, Bool.false_eq_true, if_false, he, if_true]
  · intro hd he hmk
    rw [Helper.mkdir]
    simp only [hd, Bool.false_eq_true, if_false, he, hmk]
  · intro e out hd he hmk hex
    rw [Helper.mkdir]
    simp only [hd, Bool.false_eq_true, if_false, he, hmk]
    rw [check_call_eval_ok hex]
  · intro e rc out hd he hmk hex
    rw [Helper.mkdir]
    simp only [hd, Bool.false_eq_true, if_false, he, hmk]
    rw [check_call_eval_exit hex]
  · intro e hd he hmk hex
    rw [Helper.mkdir]
    simp only [hd, Bool.false_eq_true, if_false, he, hmk]
    rw [check_call_eval_enoent hex]

/-- Closed witness for `mkdir_spec`. -/
theorem mkdir_spec_witness :
    Helper.mkdir ⟨fun _ => true, fun _ => false, fun _ _ => none,
        fun _ => .ok ""⟩ "/tmp" 493 = (.ok true, false, []) ∧
    Helper.mkdir ⟨fun _ => false, fun _ => false, fun _ _ => some EACCES,
        fun _ => .exitError 1 ""⟩ "/opt/cot" 493 =
      (.error (.osError EACCES), true,
        [["sudo", "mkdir", "-p", "--mode=" ++ octalString 493,
          "/opt/cot"]]) :=
  ⟨(mkdir_spec ⟨fun _ => true, fun _ => false, fun _ _ => none,
      fun _ => .ok ""⟩ "/tmp" 493).1 rfl,
   (mkdir_spec ⟨fun _ => false, fun _ => false, fun _ _ => some EACCES,
      fun _ => .exitError 1 ""⟩ "/opt/cot" 493).2.2.2.2.1 EACCES 1 ""
      rfl rfl rfl rfl⟩

end COT
